import Mathlib

/-!
Verification of the clipmotion CLI registry pipeline.

This file gives a shallow embedding of the registry builder
(`cli/commands/registry-build.ts`), the zod item schema
(`cli/registry-schema.ts`) and the installer (`cli/commands/add.ts`),
and proves or refutes the specification claims about them.

The original code performs its text analysis with JavaScript regular
expressions executed by `RegExp.exec` / `String.match`.  Each regex is
embedded here as a deterministic scanner over `List Char` whose behaviour
mirrors the leftmost-match / greedy / lazy semantics of the original
pattern; every scanner carries a comment citing the regex it embeds.
Recursive scanners take an explicit fuel argument (instantiated with the
length of the input plus one by their wrappers) so that all definitions
reduce inside the kernel.
-/

namespace ClipMotion

/-- ASCII interpretation of the JavaScript regex class `\s`
(space, tab, line feed, carriage return, vertical tab, form feed). -/
def isJsSpace (c : Char) : Bool :=
  c == ' ' || c == '\t' || c == '\n' || c == '\r' || c == Char.ofNat 11 || c == Char.ofNat 12

/-- The JavaScript regex class `\w`: ASCII letters, digits and underscore. -/
def isWordChar (c : Char) : Bool :=
  c.isAlphanum || c == '_'

/-- Does `l` start with the characters `p`? -/
def startsWithL : List Char → List Char → Bool
  | [], _ => true
  | _ :: _, [] => false
  | p :: ps, c :: cs => p == c && startsWithL ps cs

/-- Longest span of characters satisfying `f` at the head of the list,
together with the remainder. -/
def spanB (f : Char → Bool) : List Char → List Char × List Char
  | [] => ([], [])
  | c :: cs =>
    if f c then
      let (a, b) := spanB f cs
      (c :: a, b)
    else ([], c :: cs)

/-- Does the pattern `p` occur as a contiguous sublist of `l`?
Embeds `String.prototype.includes`. -/
def hasSubL (p : List Char) : List Char → Bool
  | [] => startsWithL p []
  | l@(_ :: cs) => startsWithL p l || hasSubL p cs

/-- `String.prototype.includes`. -/
def jsIncludes (s pat : String) : Bool :=
  hasSubL pat.data s.data

/-- JavaScript `Set` materialised as an insertion-ordered duplicate-free
list: `Array.from(new Set(l))`. -/
def jsSetList (l : List String) : List String :=
  l.foldl (fun acc x => if acc.contains x then acc else acc ++ [x]) []

/-- `String.prototype.trimEnd` restricted to the ASCII whitespace the
inputs use. -/
def jsTrimEnd (s : String) : String :=
  String.mk (s.data.reverse.dropWhile (fun c => isJsSpace c) ).reverse

/-- `String.prototype.trim`. -/
def jsTrim (s : String) : String :=
  String.mk (((s.data.dropWhile (fun c => isJsSpace c)).reverse.dropWhile
    (fun c => isJsSpace c)).reverse)

/-- `Array.prototype.join(sep)`. -/
def joinSep (sep : String) : List String → String
  | [] => ""
  | [x] => x
  | x :: xs => x ++ sep ++ joinSep sep xs

/-- `path.join` for the simple forward-slash paths the CLI builds. -/
def pathJoin (a b : String) : String := a ++ "/" ++ b

/-- `path.basename`: the segment after the last forward slash. -/
def baseName (s : String) : String :=
  String.mk ((s.data.reverse.takeWhile (fun c => c != '/')).reverse)

/-- Worker for `splitOnChar`: `acc` holds the current segment reversed. -/
def splitOnCharGo (ch : Char) : List Char → List Char → List String
  | acc, [] => [String.mk acc.reverse]
  | acc, c :: rest =>
    if c == ch then String.mk acc.reverse :: splitOnCharGo ch [] rest
    else splitOnCharGo ch (c :: acc) rest

/-- `String.prototype.split(ch)` for a one-character separator. -/
def splitOnChar (ch : Char) (s : String) : List String :=
  splitOnCharGo ch [] s.data

/-- `String.prototype.startsWith`. -/
def jsStartsWith (s p : String) : Bool :=
  startsWithL p.data s.data

/-- Does `l` end with the characters `p`? -/
def endsWithL (p l : List Char) : Bool :=
  startsWithL p.reverse l.reverse

/-! ## `extractFunctionNames` (add.ts lines 215-234)

The source collects into one `Set`, first every capture of
`/(?:export\s+)?(?:async\s+)?function\s+(\w+)/g`, then every capture of
`/(?:export\s+)?(?:const|let|var)\s+(\w+)\s*[:=]\s*(?:async\s*)?\(|.../g`
(whose second alternative is subsumed by the first).  The optional
`export`/`async` prefixes never change the captured name nor the position
`lastIndex` is advanced to (the end of the capture resp. the `(`), so the
scanners below anchor directly on the mandatory keyword. -/

/-- One attempt of the function-declaration name regex anchored at the
current position: `function` `\s+` `(\w+)`.  Returns the captured name and
the remainder after it (the regex match ends with the capture). -/
def fnNameAt (l : List Char) : Option (String × List Char) :=
  if startsWithL "function".data l then
    let r := l.drop 8
    let (ws, r2) := spanB isJsSpace r
    if ws.isEmpty then none
    else
      let (w, r3) := spanB isWordChar r2
      if w.isEmpty then none else some (String.mk w, r3)
  else none

/-- One attempt of the arrow/const binding name regex anchored at a
`const`/`let`/`var` keyword: `\s+` `(\w+)` `\s*` `[:=]` `\s*`
`(?:async\s*)?` `(`.  Returns the captured name and the remainder after
the `(` that ends the match. -/
def arrowNameAt (l : List Char) : Option (String × List Char) :=
  let kw :=
    if startsWithL "const".data l then some 5
    else if startsWithL "var".data l then some 3
    else if startsWithL "let".data l then some 3
    else none
  match kw with
  | none => none
  | some k =>
    let r := l.drop k
    let (ws, r2) := spanB isJsSpace r
    if ws.isEmpty then none
    else
      let (w, r3) := spanB isWordChar r2
      if w.isEmpty then none
      else
        let (_, r4) := spanB isJsSpace r3
        match r4 with
        | c :: r5 =>
          if c == ':' || c == '=' then
            let (_, r6) := spanB isJsSpace r5
            let r7 := if startsWithL "async".data r6 then
                (spanB isJsSpace (r6.drop 5)).2
              else r6
            match r7 with
            | c2 :: r8 => if c2 == '(' then some (String.mk w, r8) else none
            | [] => none
          else none
        | [] => none

/-- Repeated `exec` of a name regex: on a failed attempt the engine slides
one character to the right, on a success it resumes at the match end. -/
def scanNames (att : List Char → Option (String × List Char)) :
    Nat → List Char → List String
  | 0, _ => []
  | _ + 1, [] => []
  | fuel + 1, l@(_ :: rest) =>
    match att l with
    | some (w, rem) => w :: scanNames att fuel rem
    | none => scanNames att fuel rest

/-- `extractFunctionNames` (add.ts lines 215-234): function-declaration
captures, then arrow/const captures, deduplicated in insertion order by
the `Set`. -/
def extractFunctionNames (content : String) : List String :=
  let l := content.data
  jsSetList (scanNames fnNameAt (l.length + 1) l ++
    scanNames arrowNameAt (l.length + 1) l)

/-! ## `extractFunctionCode` (add.ts lines 236-259) -/

/-- Greedy body of the function snippet regex after the opening brace:
`(?:[^{}]|\{[^{}]*\})*\}`.  The star consumes non-brace characters and
one-level `{...}` groups as far as possible and the match succeeds exactly
when it then stands on a `}`.  Returns the consumed length including the
closing brace. -/
def fnBodyScan : Nat → List Char → Option Nat
  | 0, _ => none
  | _ + 1, [] => none
  | fuel + 1, c :: rest =>
    if c == Char.ofNat 125 then some 1
    else if c == Char.ofNat 123 then
      let (inner, r2) := spanB (fun d => d != Char.ofNat 123 && d != Char.ofNat 125) rest
      match r2 with
      | d :: r3 =>
        if d == Char.ofNat 125 then
          (fnBodyScan fuel r3).map (fun n => n + inner.length + 2)
        else none
      | [] => none
    else (fnBodyScan fuel rest).map (fun n => n + 1)

/-- Optional literal-keyword-plus-`\s+` prefix `(?:kw\s+)?`; returns the
consumed length and remainder.  If the keyword is present but not
followed by whitespace the prefix is not taken (the mandatory part must
then match at the current position, exactly as regex backtracking would
conclude). -/
def optKwSpace (kw : List Char) (l : List Char) : Nat × List Char :=
  if startsWithL kw l then
    let r := l.drop kw.length
    let (ws, r2) := spanB isJsSpace r
    if ws.isEmpty then (0, l) else (kw.length + ws.length, r2)
  else (0, l)

/-- One attempt, anchored at the current position, of the snippet regex
`((?:export\s+)?(?:async\s+)?function\s+NAME\s*[^{]*\{(?:[^{}]|\{[^{}]*\})*\})`:
returns the length of the whole capture. -/
def fnCodeAt (name : List Char) (l : List Char) : Option Nat :=
  let (n1, l1) := optKwSpace "export".data l
  let (n2, l2) := optKwSpace "async".data l1
  if startsWithL "function".data l2 then
    let r := l2.drop 8
    let (ws, r2) := spanB isJsSpace r
    if ws.isEmpty then none
    else if startsWithL name r2 then
      let r3 := r2.drop name.length
      let (pre, r4) := spanB (fun d => d != Char.ofNat 123) r3
      match r4 with
      | c :: r5 =>
        if c == Char.ofNat 123 then
          (fnBodyScan (r5.length + 1) r5).map (fun b =>
            n1 + n2 + 8 + ws.length + name.length + pre.length + 1 + b)
        else none
      | [] => none
    else none
  else none

/-- One attempt of the arrow snippet regex
`((?:export\s+)?(?:const|let|var)\s+NAME\s*[:=][^;]*(?:;|\n))`: the greedy
`[^;]*` runs to the first semicolon; if the rest of the text holds no
semicolon it backtracks to the last line feed.  Returns the capture
length. -/
def arrowCodeAt (name : List Char) (l : List Char) : Option Nat :=
  let (n1, l1) := optKwSpace "export".data l
  let kw :=
    if startsWithL "const".data l1 then some 5
    else if startsWithL "var".data l1 then some 3
    else if startsWithL "let".data l1 then some 3
    else none
  match kw with
  | none => none
  | some k =>
    let r := l1.drop k
    let (ws, r2) := spanB isJsSpace r
    if ws.isEmpty then none
    else if startsWithL name r2 then
      let r3 := r2.drop name.length
      let (ws2, r4) := spanB isJsSpace r3
      match r4 with
      | c :: r5 =>
        if c == ':' || c == '=' then
          let (noSemi, r6) := spanB (fun d => d != ';') r5
          let head := n1 + k + ws.length + name.length + ws2.length + 1
          match r6 with
          | _ :: _ => some (head + noSemi.length + 1)
          | [] =>
            match (noSemi.reverse.takeWhile (fun d => d != '\n')).length,
                noSemi.contains '\n' with
            | tail, true => some (head + (noSemi.length - tail))
            | _, false => none
        else none
      | [] => none
    else none

/-- `String.prototype.match` (no `g` flag): leftmost match of an anchored
attempt, returning the capture text. -/
def firstMatch (att : List Char → Option Nat) : Nat → List Char → Option String
  | 0, _ => none
  | _ + 1, [] => none
  | fuel + 1, l@(_ :: rest) =>
    match att l with
    | some n => some (String.mk (l.take n))
    | none => firstMatch att fuel rest

/-- `extractFunctionCode` (add.ts lines 236-259): try the function
declaration pattern, then the arrow/const pattern. -/
def extractFunctionCode (content functionName : String) : Option String :=
  let l := content.data
  match firstMatch (fnCodeAt functionName.data) (l.length + 1) l with
  | some s => some s
  | none => firstMatch (arrowCodeAt functionName.data) (l.length + 1) l

/-! ## `mergeUtilsFile` (add.ts lines 261-328)

The filesystem interaction is factored out: the function below receives
the current content of the target file (`none` when the file does not
exist) and returns the merge result together with the content the file
holds afterwards.  `created` and `merged` correspond to a write, `skipped`
to no write at all. -/

inductive MergeResult where
  | created
  | merged
  | skipped
deriving DecidableEq, Repr, BEq

/-- The `missingFunctions` of `mergeUtilsFile` (add.ts lines 292-294):
incoming binding names absent from the existing file. -/
def missingNames (existingContent newContent : String) : List String :=
  (extractFunctionNames newContent).filter
    (fun fn => !((extractFunctionNames existingContent).contains fn))

/-- The `functionsToAdd` of `mergeUtilsFile` (add.ts lines 304-310): the
extractable trimmed snippets of the missing names. -/
def snippetsToAdd (existingContent newContent : String) : List String :=
  (missingNames existingContent newContent).filterMap
    (fun fnName => (extractFunctionCode newContent fnName).map jsTrim)

/-- `mergeUtilsFile` (add.ts lines 261-328). -/
def mergeUtilsFile (existing : Option String) (newContent : String)
    (overwrite : Bool) : MergeResult × String :=
  match existing with
  | none => (.created, newContent)
  | some existingContent =>
    if overwrite then (.created, newContent)
    else if (missingNames existingContent newContent).isEmpty then
      (.skipped, existingContent)
    else if (snippetsToAdd existingContent newContent).isEmpty then
      (.skipped, existingContent)
    else
      (.merged,
        jsTrimEnd existingContent ++ "\n\n" ++
          joinSep "\n\n" (snippetsToAdd existingContent newContent) ++ "\n")

/-- `isUtilsFile` (add.ts lines 201-213): lower-case the path, turn
backslashes into slashes, and test the five utils-file patterns. -/
def isUtilsFile (filename : String) : Bool :=
  let n := String.mk (filename.data.map (fun c =>
    if c == '\\' then '/' else c.toLower))
  let ext4 := ["ts", "js", "tsx", "jsx"]
  let ext2 := ["ts", "js"]
  ext4.any (fun e => n == "utils." ++ e) ||
  ext4.any (fun e => n == "utils/index." ++ e) ||
  ext4.any (fun e => endsWithL ("/utils/index." ++ e).data n.data) ||
  ext2.any (fun e => n == "cn." ++ e) ||
  ext2.any (fun e => n == "cn/index." ++ e)

/-! ## Dependency extraction (registry-build.ts lines 94-188) -/

/-- Quote characters, written by code point to keep sources plain. -/
def dq : Char := Char.ofNat 34

/-- Single quote. -/
def sq : Char := Char.ofNat 39

/-- Is the character one of the two quote characters the import regexes
accept around a module specifier? -/
def isQuote (c : Char) : Bool := c == dq || c == sq

/-- After an opening quote: a non-empty capture of non-quote characters
followed by a closing quote of either kind.  Returns the captured
specifier and the remainder after the closing quote. -/
def quotedSpec (l : List Char) : Option (String × List Char) :=
  match l with
  | c :: r =>
    if isQuote c then
      let (spec, r2) := spanB (fun d => !(isQuote d)) r
      if spec.isEmpty then none
      else
        match r2 with
        | d :: r3 => if isQuote d then some (String.mk spec, r3) else none
        | [] => none
    else none
  | [] => none

/-- Can the region between the import keyword and a candidate `from` in
the ES6 import regex be decomposed as `\s+` (may cross line feeds)
followed by a lazy `.*?` (which may not) and a final `\s+`? -/
def es6RegionOk (region : List Char) : Bool :=
  let hd := (region.takeWhile (fun d => isJsSpace d)).length
  let tl := (region.reverse.takeWhile (fun d => isJsSpace d)).length
  hd ≥ 1 && tl ≥ 1 && region.length ≥ 2 &&
    !(((region.drop hd).take (region.length - hd - tl)).contains '\n')

/-- Walk forward accumulating the region before a candidate `from` (kept
reversed in `acc`); at each position test whether the region splits per
`es6RegionOk` and `from`, `\s+`, a quoted specifier follow.  The lazy
`.*?` of the regex makes the engine choose the earliest workable
`from`. -/
def es6FindFrom : Nat → List Char → List Char → Option (String × List Char)
  | 0, _, _ => none
  | _ + 1, _, [] => none
  | fuel + 1, acc, l@(c :: rest) =>
    let attempt :=
      if startsWithL "from".data l && es6RegionOk acc.reverse then
        let afterFrom := l.drop 4
        let (ws, r2) := spanB isJsSpace afterFrom
        if ws.isEmpty then none else quotedSpec r2
      else none
    match attempt with
    | some res => some res
    | none => es6FindFrom fuel (c :: acc) rest

/-- One attempt of the ES6 import regex
`/import\s+.*?\s+from\s+Q([^Q]+)Q/g` — writing `Q` for the class of the
two quote characters — anchored at the current position.  Returns the
captured specifier and the remainder after the closing quote. -/
def es6ImportAt (l : List Char) : Option (String × List Char) :=
  if startsWithL "import".data l then
    let r := l.drop 6
    es6FindFrom (r.length + 1) [] r
  else none

/-- One attempt of `/require\s*\(Q([^Q]+)Q\)/g` resp. the dynamic
variant with the import keyword (`Q` again the quote class), anchored at
the current position. -/
def callImportAt (kw : List Char) (l : List Char) : Option (String × List Char) :=
  if startsWithL kw l then
    let r := l.drop kw.length
    let (_, r2) := spanB isJsSpace r
    match r2 with
    | c :: r3 =>
      if c == '(' then
        match quotedSpec r3 with
        | some (spec, r4) =>
          match r4 with
          | d :: r5 => if d == ')' then some (spec, r5) else none
          | [] => none
        | none => none
      else none
    | [] => none
  else none

/-- Global scan of one import pattern, mirroring the `exec` loop. -/
def scanSpecs (att : List Char → Option (String × List Char)) :
    Nat → List Char → List String
  | 0, _ => []
  | _ + 1, [] => []
  | fuel + 1, l@(_ :: rest) =>
    match att l with
    | some (w, rem) => w :: scanSpecs att fuel rem
    | none => scanSpecs att fuel rest

/-- All module specifiers matched by the three import patterns of
`extractDependencies`, in pattern order. -/
def importSpecs (content : String) : List String :=
  let l := content.data
  scanSpecs es6ImportAt (l.length + 1) l ++
    scanSpecs (callImportAt "require".data) (l.length + 1) l ++
    scanSpecs (callImportAt "import".data) (l.length + 1) l

/-- Lexicographic comparison of character lists by code point — the
comparison `Array.prototype.sort()` applies to the (ASCII) package-name
strings via UTF-16 code units. -/
def charListLe : List Char → List Char → Bool
  | [], _ => true
  | _ :: _, [] => false
  | a :: as, b :: bs => decide (a < b) || (a == b && charListLe as bs)

/-- The default `Array.prototype.sort()` string order. -/
def jsLeB (a b : String) : Bool := charListLe a.data b.data

/-- `jsLeB` as a relation, for `List.insertionSort`. -/
def jsLe (a b : String) : Prop := jsLeB a b = true

instance : DecidableRel jsLe := fun a b =>
  inferInstanceAs (Decidable (jsLeB a b = true))

instance : IsTotal String jsLe := by
  constructor
  have h : ∀ as bs : List Char, charListLe as bs = true ∨ charListLe bs as = true := by
    intro as
    induction as with
    | nil => intro bs; left; rfl
    | cons a as ih =>
      intro bs
      cases bs with
      | nil => right; rfl
      | cons b bs =>
        rcases lt_trichotomy a b with hab | hab | hab
        · left; simp [charListLe, hab]
        · subst hab
          rcases ih bs with h2 | h2
          · left; simp [charListLe, h2]
          · right; simp [charListLe, h2]
        · right; simp [charListLe, hab]
  intro a b
  exact h a.data b.data

instance : IsTrans String jsLe := by
  constructor
  have h : ∀ as bs cs : List Char, charListLe as bs = true →
      charListLe bs cs = true → charListLe as cs = true := by
    intro as
    induction as with
    | nil => intro bs cs _ _; rfl
    | cons a as ih =>
      intro bs cs h1 h2
      cases bs with
      | nil => simp [charListLe] at h1
      | cons b bs =>
        cases cs with
        | nil => simp [charListLe] at h2
        | cons c cs =>
          simp only [charListLe, Bool.or_eq_true, Bool.and_eq_true,
            decide_eq_true_eq, beq_iff_eq] at h1 h2 ⊢
          rcases h1 with h1 | ⟨hab, h1⟩
          · rcases h2 with h2 | ⟨hbc, h2⟩
            · exact Or.inl (lt_trans h1 h2)
            · exact Or.inl (hbc ▸ h1)
          · rcases h2 with h2 | ⟨hbc, h2⟩
            · subst hab
              exact Or.inl h2
            · subst hab
              exact Or.inr ⟨hbc, ih bs cs h1 h2⟩
  intro a b c
  exact h a.data b.data c.data

/-- `FRAMEWORK_DEPENDENCIES` (registry-build.ts lines 49-54). -/
def FRAMEWORK_DEPENDENCIES : List (String × String) :=
  [("nextjs", "next"), ("react", "react"), ("vue", "vue"),
   ("angular", "@angular/core")]

/-- Package name of a specifier (registry-build.ts lines 121-127): scoped
specifiers keep their first two `/`-segments, unscoped ones the first;
an empty first segment is falsy and yields nothing. -/
def packageNameOf (spec : String) : Option String :=
  if jsStartsWith spec "@" then
    some (joinSep "/" ((splitOnChar '/' spec).take 2))
  else
    match (splitOnChar '/' spec).head? with
    | some seg => if seg == "" then none else some seg
    | none => none

/-- Is the specifier skipped as relative or path alias
(registry-build.ts line 116)? -/
def isSkippedSpec (spec : String) : Bool :=
  jsStartsWith spec "." || jsStartsWith spec "@/"

/-- `extractDependencies` (registry-build.ts lines 94-132): framework base
package first, then every matched specifier that is neither relative nor
aliased, reduced to its package name; the `Set` deduplicates, and the
result is sorted. -/
def extractDependencies (content framework : String) : List String :=
  let base := (FRAMEWORK_DEPENDENCIES.lookup framework).toList
  let pkgs := (importSpecs content).filterMap (fun spec =>
    if isSkippedSpec spec then none else packageNameOf spec)
  List.insertionSort jsLe (jsSetList (base ++ pkgs))

/-- One attempt of the composed dev-dependency regex
`from Q([^Q]*PAT[^Q]*)Q` anchored at the current position: the capture
must contain the dev-tool pattern as a substring. -/
def devFromAt (pat : List Char) (l : List Char) : Option (String × List Char) :=
  if startsWithL "from ".data l then
    match quotedSpec (l.drop 5) with
    | some (spec, rem) =>
      if hasSubL pat spec.data then some (spec, rem) else none
    | none => none
  else none

/-- `extractDevDependencies` (registry-build.ts lines 134-160): for each
dev-tool signature occurring anywhere in the text, the first matched
from-import whose specifier contains it contributes its package name. -/
def extractDevDependencies (content : String) : List String :=
  let l := content.data
  let pats := ["@testing-library", "vitest", "jest", "@types/"]
  let found := pats.filterMap (fun p =>
    if hasSubL p.data l then
      match scanSpecs (devFromAt p.data) (l.length + 1) l with
      | spec :: _ => packageNameOf spec
      | [] => none
    else none)
  List.insertionSort jsLe (jsSetList found)

/-- One attempt of `/from Q@\/components\/([^Q\/]+)Q/g`, writing `Q` for
the quote class. -/
def componentImportAt (l : List Char) : Option (String × List Char) :=
  if startsWithL "from ".data l then
    match l.drop 5 with
    | c :: r =>
      if isQuote c && startsWithL "@/components/".data r then
        let r2 := r.drop 13
        let (seg, r3) := spanB (fun d => !(isQuote d) && d != '/') r2
        if seg.isEmpty then none
        else
          match r3 with
          | d :: r4 => if isQuote d then some (String.mk seg, r4) else none
          | [] => none
      else none
    | [] => none
  else none

/-- Does the text contain `from Q s Q2` for some quotes `Q`, `Q2`
(a `.test` of one of the literal registry-dependency regexes)? -/
def hasQuotedFrom (s : String) (l : List Char) : Bool :=
  let atts : List Char → Bool := fun r =>
    if startsWithL "from ".data r then
      match r.drop 5 with
      | c :: r2 =>
        if isQuote c && startsWithL s.data r2 then
          match r2.drop s.data.length with
          | d :: _ => isQuote d
          | [] => false
        else false
      | [] => false
    else false
  (List.range (l.length + 1)).any (fun i => atts (l.drop i))

/-- `extractRegistryDependencies` (registry-build.ts lines 162-188). -/
def extractRegistryDependencies (content : String) : List String :=
  let l := content.data
  let base :=
    (if hasQuotedFrom "@/components/utils" l then ["utils"] else []) ++
    (if hasQuotedFrom "@/components/utils/cn" l then ["cn"] else []) ++
    (if hasQuotedFrom "@/lib/utils" l then ["utils"] else [])
  let comps := (scanSpecs componentImportAt (l.length + 1) l).filter
    (fun seg => seg != "utils")
  List.insertionSort jsLe (jsSetList (base ++ comps))

/-! ## Metadata tags and item assembly (registry-build.ts lines 195-237) -/

/-- One attempt of a doc-tag regex `/@TAG\s+(.+)/` anchored at the current
position (the tag literal includes the `@`).  `\s+` is greedy and may
cross line feeds; `(.+)` then runs to the end of the line.  The JS engine
can also satisfy `.+` with trailing blanks alone, but such a capture
trims to the empty string, which the callers treat exactly like a missing
match (both are falsy), so the two are identified here. -/
def tagAt (tag : List Char) (l : List Char) : Option String :=
  if startsWithL tag l then
    let r := l.drop tag.length
    match r with
    | c :: _ =>
      if isJsSpace c then
        let (_, r2) := spanB isJsSpace r
        match r2 with
        | _ :: _ =>
          let (line, _) := spanB (fun d => d != '\n') r2
          some (String.mk line)
        | [] => none
      else none
    | [] => none
  else none

/-- Leftmost match of a doc tag, with the capture trimmed; a blank
capture is identified with no match (see `tagAt`). -/
def matchTag (tag : String) (content : String) : Option String :=
  let rec go : Nat → List Char → Option String
    | 0, _ => none
    | _ + 1, [] => none
    | fuel + 1, l@(_ :: rest) =>
      match tagAt tag.data l with
      | some s => some (jsTrim s)
      | none => go fuel rest
  go (content.data.length + 1) content.data

/-- The `files[]` entries of a registry item as the builder writes them. -/
structure RegistryFileOut where
  name : String
  content : String
deriving DecidableEq, Repr

/-- A registry item as assembled by `createRegistryItem`
(registry-build.ts lines 195-237).  Note the shape: there is no
`framework` field, and file entries carry only `name` and `content`. -/
structure RegistryItemOut where
  name : String
  type : String
  description : String
  files : List RegistryFileOut
  dependencies : List String
  devDependencies : List String
  registryDependencies : List String
  metaCategory : Option String
  metaSource : String
deriving DecidableEq, Repr

/-- Strip the extension (`path.extname`) from a file name:
`basename(file, extname(file))`. -/
def stripExt (file : String) : String :=
  let revTail := file.data.reverse.takeWhile (fun c => c != '.')
  if revTail.length == file.data.length then file
  else String.mk (file.data.take (file.data.length - revTail.length - 1))

/-- The part of the type after the colon: `type.split(":")[1]`. -/
def typeShort (ty : String) : String :=
  match ((splitOnChar ':' ty)).drop 1 with
  | s :: _ => s
  | [] => ""

/-- `createRegistryItem` (registry-build.ts lines 195-237).  `sourceRel`
stands for `relative(process.cwd(), filePath)`.  The single `files[]`
entry keeps the original file name for every item type. -/
def createRegistryItem (file fileContent framework ty sourceRel : String) :
    RegistryItemOut :=
  let componentName := stripExt file
  let descriptionMatch := matchTag "@description" fileContent
  let categoryMatch := matchTag "@category" fileContent
  { name := componentName
    type := ty
    description := descriptionMatch.getD
      (componentName ++ " " ++ typeShort ty ++ " for " ++ framework)
    files := [⟨file, fileContent⟩]
    dependencies := extractDependencies fileContent framework
    devDependencies := extractDevDependencies fileContent
    registryDependencies := extractRegistryDependencies fileContent
    metaCategory := categoryMatch
    metaSource := sourceRel }

/-! ## JSON artifacts and the zod schema (registry-schema.ts lines 11-32) -/

/-- A fragment of JSON, enough to express the artifacts the builder
serialises. -/
inductive Jx where
  | s (v : String)
  | n (v : Nat)
  | arr (l : List Jx)
  | obj (l : List (String × Jx))
deriving BEq, Repr

/-- Key lookup in a JSON object, `none` for an absent key. -/
def jxGet (key : String) : Jx → Option Jx
  | .obj kvs => kvs.lookup key
  | _ => none

/-- `JSON.stringify` of a registry item, field for field in the order the
object literal of `createRegistryItem` emits them.  The `meta` object
holds `category` only when the builder produced one, and always
`source`. -/
def itemJson (it : RegistryItemOut) : Jx :=
  .obj [("name", .s it.name),
        ("type", .s it.type),
        ("description", .s it.description),
        ("files", .arr (it.files.map (fun f =>
          .obj [("name", .s f.name), ("content", .s f.content)]))),
        ("dependencies", .arr (it.dependencies.map .s)),
        ("devDependencies", .arr (it.devDependencies.map .s)),
        ("registryDependencies", .arr (it.registryDependencies.map .s)),
        ("meta", .obj ((match it.metaCategory with
          | some c => [("category", Jx.s c)]
          | none => []) ++ [("source", Jx.s it.metaSource)]))]

/-- Is the value a string? -/
def jxIsStr : Option Jx → Bool
  | some (.s _) => true
  | _ => false

/-- zod `z.array(z.string())` with `.default([])`: absent passes, present
must be an array of strings. -/
def jxStrArrDefault : Option Jx → Bool
  | none => true
  | some (.arr l) => l.all (fun v => match v with | .s _ => true | _ => false)
  | some _ => false

/-- zod `z.string().optional()`. -/
def jxOptStr : Option Jx → Bool
  | none => true
  | some (.s _) => true
  | _ => false

/-- One entry of the `files` array: `z.object({name, content, type})`,
all three required strings. -/
def jxFileEntryOk : Jx → Bool
  | .obj kvs =>
    jxIsStr (kvs.lookup "name") && jxIsStr (kvs.lookup "content") &&
      jxIsStr (kvs.lookup "type")
  | _ => false

/-- The `meta` object of the schema: `category`, `source` optional
strings, `difficulty` an optional enum, `contributor` optional (whose
inner shape the builder never emits, so absence suffices here). -/
def jxMetaOk : Option Jx → Bool
  | some (.obj kvs) =>
    jxOptStr (kvs.lookup "category") && jxOptStr (kvs.lookup "source") &&
      (match kvs.lookup "difficulty" with
        | none => true
        | some (.s d) => d == "easy" || d == "medium" || d == "hard"
        | some _ => false)
  | _ => false

/-- `registryItemSchema` (registry-schema.ts lines 11-32): `name`,
`description` strings; `type` and `framework` required enums;
dependency arrays defaulted; `files` a required array of
`{name, content, type}` entries; `meta` a required object. -/
def registryItemSchemaAccepts (j : Jx) : Bool :=
  match j with
  | .obj kvs =>
    jxIsStr (kvs.lookup "name") &&
    jxIsStr (kvs.lookup "description") &&
    (match kvs.lookup "type" with
      | some (.s t) => t == "registry:component" || t == "registry:lib" ||
          t == "registry:hook"
      | _ => false) &&
    (match kvs.lookup "framework" with
      | some (.s f) => f == "nextjs" || f == "react" || f == "vue" ||
          f == "angular"
      | _ => false) &&
    jxStrArrDefault (kvs.lookup "dependencies") &&
    jxStrArrDefault (kvs.lookup "devDependencies") &&
    jxStrArrDefault (kvs.lookup "registryDependencies") &&
    (match kvs.lookup "files" with
      | some (.arr l) => l.all jxFileEntryOk
      | _ => false) &&
    jxMetaOk (kvs.lookup "meta")
  | _ => false

/-! ## Directory processing and the index (registry-build.ts lines 239-466) -/

/-- `VALID_EXTENSIONS` check (registry-build.ts lines 47, 62-65). -/
def isValidComponentFile (filename : String) : Bool :=
  let ext := String.mk (match filename.data.reverse.takeWhile (fun c => c != '.') with
    | t => if t.length == filename.data.length then [] else '.' :: t.reverse)
  ext == ".tsx" || ext == ".ts" || ext == ".vue" || ext == ".jsx" || ext == ".js"

/-- `processDirectory` (registry-build.ts lines 257-300) on an already
listed directory: directories and files with unrecognised extensions are
skipped, every other file is assembled by `createRegistryItem` and its
JSON artifact written unconditionally — no schema validation happens
between assembly and `writeRegistryItem`.  Returns the artifacts written
(output file name and serialised item). -/
def processDirectory (framework ty : String)
    (files : List (String × String)) : List (String × Jx) :=
  files.filterMap (fun fc =>
    if isValidComponentFile fc.1 then
      some (stripExt fc.1 ++ ".json",
        itemJson (createRegistryItem fc.1 fc.2 framework ty
          (pathJoin (pathJoin "registry" framework) fc.1)))
    else none)

/-- The directory listing of one framework subtree: the files of its
`ui`, `lib` and `hooks` role folders. -/
structure FrameworkDir where
  name : String
  ui : List (String × String)
  lib : List (String × String)
  hooks : List (String × String)

/-- `processFramework` (registry-build.ts lines 302-356): components from
`ui`, utilities from `lib` plus `hooks`. -/
def processFramework (fw : FrameworkDir) : Nat × Nat :=
  ((processDirectory fw.name "registry:component" fw.ui).length,
   (processDirectory fw.name "registry:lib" fw.lib).length +
     (processDirectory fw.name "registry:hook" fw.hooks).length)

/-- The aggregate `index.json` object exactly as `buildRegistry` writes
it (registry-build.ts lines 428-445): `frameworks`, `stats` and
`lastUpdated` — and nothing else. -/
def indexJson (frameworks : List String)
    (totalComponents totalUtilities totalFrameworks : Nat)
    (lastUpdated : String) : Jx :=
  .obj [("frameworks", .arr (frameworks.map .s)),
        ("stats", .obj [("totalComponents", .n totalComponents),
                        ("totalUtilities", .n totalUtilities),
                        ("totalFrameworks", .n totalFrameworks)]),
        ("lastUpdated", .s lastUpdated)]

/-- `buildRegistry` (registry-build.ts lines 362-466) after framework
discovery: exit code and the final index document.  `lastUpdated` stands
for `new Date().toISOString()`. -/
def buildRegistryRun (dirs : List FrameworkDir) (lastUpdated : String) :
    Nat × Jx :=
  if dirs.isEmpty then (1, .obj [])
  else
    let stats := dirs.foldl (fun acc fw =>
      let s := processFramework fw
      (acc.1 + s.1, acc.2 + s.2)) (0, 0)
    (0, indexJson (dirs.map (fun d => d.name)) stats.1 stats.2 dirs.length
      lastUpdated)

/-! ## Installer (add.ts lines 334-578)

The installer is embedded as a state-passing interpreter.  The mutable
`installed` set shared across the recursion, the observable effects
(fetches, package-manager invocations, file writes and merges) and the
project file system are threaded through an `InstallState`; registry
fetches are a function parameter so that each theorem fixes its own
registry or failure scenario.  The recursion of `installSingleComponent`
takes fuel; the termination claims show concrete fuel bounds past which
the result is stable. -/

/-- A registry item as the installer consumes it
(`RegistryComponent` in types.ts). -/
structure RegComponent where
  name : String
  type : String
  files : List (String × String)
  dependencies : List String
  devDependencies : List String
  registryDependencies : List String
deriving Repr

/-- A fetch failure, as distinguished by `fetchComponent`
(add.ts lines 392-416): an HTTP 404, another HTTP error carrying the
status and status text, or a rejected request. -/
inductive FetchFail where
  | http404
  | httpErr (status : Nat) (statusText : String)
  | netErr (msg : String)
deriving Repr

/-- Outcome of one registry request. -/
inductive FetchOutcome where
  | ok (c : RegComponent)
  | fail (f : FetchFail)

/-- The message of the error `fetchComponent` throws for each failure
(add.ts lines 397-415), after the catch-all rewrap
`Failed to fetch component: ...`. -/
def fetchErrorMessage (componentName framework : String) : FetchFail → String
  | .http404 => "Failed to fetch component: Component " ++ String.mk [dq] ++
      componentName ++ String.mk [dq] ++ " not found for " ++ framework
  | .httpErr status statusText => "Failed to fetch component: HTTP " ++
      toString status ++ ": " ++ statusText
  | .netErr msg => "Failed to fetch component: " ++ msg

/-- The classification `installSingleComponent` applies in its catch
block (add.ts line 567): `error.message.includes("not found")`. -/
def classifiedNotFound (msg : String) : Bool :=
  jsIncludes msg "not found"

/-- Options and configuration relevant to file placement. -/
structure InstallCtx where
  cwd : String
  componentsPath : String
  utilsPath : String
  overwrite : Bool

/-- Observable installer effects, in program order. -/
inductive Event where
  | fetched (name : String)
  | pkgInstall (deps : List String) (dev : Bool)
  | wrote (path content : String)
  | skippedFile (path : String)
  | mergedUtils (path : String) (r : MergeResult)
deriving DecidableEq, Repr

/-- Threaded installer state: the shared `installed` set (insertion
order), the effect trace, and the project file system as an association
list from path to content. -/
structure InstallState where
  installed : List String
  events : List Event
  fs : List (String × String)
deriving DecidableEq, Repr

/-- File-system read: first binding of the path. -/
def fsLookup : List (String × String) → String → Option String
  | [], _ => none
  | (k, v) :: rest, path => if path == k then some v else fsLookup rest path

/-- File-system write: replace the first binding of the path, or append a
new one. -/
def fsWrite (fs : List (String × String)) (path content : String) :
    List (String × String) :=
  match fs with
  | [] => [(path, content)]
  | (p, c) :: rest =>
    if p == path then (p, content) :: rest
    else (p, c) :: fsWrite rest path content

/-- Target path of one file of an item (add.ts lines 480-498):
`registry:lib` items land under the utils alias with only the base name
kept, all other items under the components path with the full name. -/
def targetPath (ctx : InstallCtx) (ty fileName : String) : String :=
  if ty == "registry:lib" then
    pathJoin (pathJoin ctx.cwd ctx.utilsPath) (baseName fileName)
  else
    pathJoin (pathJoin ctx.cwd ctx.componentsPath) fileName

/-- Process one file of an item (add.ts lines 480-537): utils files are
routed through `mergeUtilsFile`, other files are written unless they
already exist and no overwrite was requested.  Returns the logged event
and the new file system. -/
def fileStep (ctx : InstallCtx) (ty : String) (fs : List (String × String))
    (file : String × String) : Event × List (String × String) :=
  let target := targetPath ctx ty file.1
  if isUtilsFile target then
    let m := mergeUtilsFile (fsLookup fs target) file.2 ctx.overwrite
    match m.1 with
    | .skipped => (.mergedUtils target .skipped, fs)
    | r => (.mergedUtils target r, fsWrite fs target m.2)
  else
    if (fsLookup fs target).isSome && !ctx.overwrite then
      (.skippedFile target, fs)
    else
      (.wrote target file.2, fsWrite fs target file.2)

/-- The file loop of `installSingleComponent`, as trace and resulting
file system. -/
def filesRun (ctx : InstallCtx) (ty : String) :
    List (String × String) → List (String × String) →
    List Event × List (String × String)
  | [], fs => ([], fs)
  | f :: rest, fs =>
    let (e, fs2) := fileStep ctx ty fs f
    let (es, fs3) := filesRun ctx ty rest fs2
    (e :: es, fs3)

/-- The package-manager invocations of one item (add.ts lines 462-472):
skipped entirely when the dependency list is empty. -/
def pkgEvents (c : RegComponent) : List Event :=
  (if c.dependencies.isEmpty then [] else [.pkgInstall c.dependencies false]) ++
    (if c.devDependencies.isEmpty then [] else [.pkgInstall c.devDependencies true])

/-- `installSingleComponent` (add.ts lines 422-578).  A name already in
the shared `installed` set short-circuits to success; otherwise the name
is added *before* the fetch, the registry dependencies of the item are
installed recursively (a failing dependency throws, which the catch turns
into `false` with all state kept), then its packages, then its files.  A
fetch failure is caught and returns `false`.  `none` means the fuel ran
out. -/
def installSingle (env : String → FetchOutcome) (ctx : InstallCtx) :
    Nat → String → InstallState → Option (Bool × InstallState)
  | 0, _, _ => none
  | fuel + 1, componentName, st =>
    if st.installed.contains componentName then some (true, st)
    else
      let st1 : InstallState := { st with installed := st.installed ++ [componentName] }
      match env componentName with
      | .fail _ => some (false, st1)
      | .ok comp =>
        let st2 : InstallState := { st1 with events := st1.events ++ [.fetched componentName] }
        let depsRes := comp.registryDependencies.foldl
          (fun acc dep =>
            match acc with
            | none => none
            | some (false, s) => some (false, s)
            | some (true, s) => installSingle env ctx fuel dep s)
          (some (true, st2))
        match depsRes with
        | none => none
        | some (false, s) => some (false, s)
        | some (true, s3) =>
          let s4 : InstallState := { s3 with events := s3.events ++ pkgEvents comp }
          let fr := filesRun ctx comp.type comp.files s3.fs
          some (true, { s4 with events := s4.events ++ fr.1, fs := fr.2 })

/-- Aggregated result of the `addComponent` command loop
(add.ts lines 664-760). -/
structure AddOutcome where
  success : Nat
  failed : Nat
  notFound : List String
  st : InstallState
  fuelOut : Bool
deriving Repr

/-- The per-name loop of `addComponent` (add.ts lines 674-682): every
name whose install returned `false` — for any reason — is counted as
failed and pushed onto `notFound`. -/
def runAddLoop (env : String → FetchOutcome) (ctx : InstallCtx) (fuel : Nat)
    (components : List String) : AddOutcome :=
  components.foldl (fun acc name =>
    match installSingle env ctx fuel name acc.st with
    | some (true, st2) => { acc with success := acc.success + 1, st := st2 }
    | some (false, st2) =>
      { acc with
        failed := acc.failed + 1
        notFound := acc.notFound ++ [name]
        st := st2 }
    | none => { acc with fuelOut := true })
    ⟨0, 0, [], ⟨[], [], []⟩, false⟩

/-- `getAvailableFrameworks` (add.ts lines 169-195): HEAD-probe the four
frameworks for the name; `headOk` stands for the probe response. -/
def availableFrameworks (headOk : String → String → Bool) (name : String) :
    List String :=
  ["nextjs", "react", "vue", "angular"].filter (fun fw => headOk name fw)

/-- The suggestion pass of `addComponent` (add.ts lines 718-760): the
availability probe is consulted for *every* entry of `notFound`, i.e. for
every failed name; a non-empty probe result yields the
try-another-framework suggestion. -/
def suggestionsFor (headOk : String → String → Bool)
    (notFound : List String) : List (String × List String) :=
  notFound.map (fun n => (n, availableFrameworks headOk n))

/-- The whole `addComponent` run: loop, suggestions, exit code
(add.ts lines 766-768). -/
def runAdd (env : String → FetchOutcome) (headOk : String → String → Bool)
    (ctx : InstallCtx) (fuel : Nat) (components : List String) :
    AddOutcome × List (String × List String) × Nat :=
  let r := runAddLoop env ctx fuel components
  (r, suggestionsFor headOk r.notFound, if r.failed > 0 then 1 else 0)

/-- Association-list lookup for a literal registry. -/
def regLookup : List (String × RegComponent) → String → Option RegComponent
  | [], _ => none
  | (k, c) :: rest, name => if name == k then some c else regLookup rest name

/-- Fetch environment backed by a literal registry: a missing name is the
not-found condition. -/
def fetchOf (reg : List (String × RegComponent)) : String → FetchOutcome :=
  fun name =>
    match regLookup reg name with
    | some c => .ok c
    | none => .fail .http404

/-- The component names appearing in fetch events of a trace. -/
def fetchedNames (events : List Event) : List String :=
  events.filterMap (fun e => match e with
    | .fetched n => some n
    | _ => none)

/-! ## Concrete inputs used by the claims -/

/-- The source text of the dependency-extraction example of the spec. -/
def c6Sample : String :=
  "import React from " ++ String.mk [dq] ++ "react" ++ String.mk [dq] ++
  ";\nimport sub from " ++ String.mk [dq] ++ "@scope/pkg/sub" ++ String.mk [dq] ++
  ";\nimport loc from " ++ String.mk [dq] ++ "./local" ++ String.mk [dq] ++
  ";\nimport ali from " ++ String.mk [dq] ++ "@/internal-alias" ++ String.mk [dq] ++ ";"

/-- Existing utils file of the merge example of the spec: `cn` only. -/
def exCnOnly : String :=
  "export function cn(inputs) \x7b\n  return inputs;\n\x7d"

/-- Incoming utils content of the merge example of the spec: a different
`cn` implementation plus `clsx`. -/
def incCnClsx : String :=
  "export function cn(inputs) \x7b\n  return twMerge(inputs);\n\x7d\n\n" ++
  "export function clsx(args) \x7b\n  return args;\n\x7d"

/-- The `clsx` snippet the merge appends in the example. -/
def clsxSnippet : String :=
  "export function clsx(args) \x7b\n  return args;\n\x7d"

/-- Existing utils file of the C4 counterexample: a `cn` binding. -/
def c4CexExisting : String :=
  "export function cn(a) \x7b return 1 \x7d"

/-- Incoming utils content of the C4 counterexample.  The snippet the
name-anchored pattern grabs for the missing name `clsx` runs from
`function clsx` to the first balanced brace block, swallowing the
`const cn = ...` statement between them. -/
def c4CexIncoming : String :=
  "function clsx(a)\nconst cn = (x) => 2;\nfunction dum(b) \x7b return b \x7d"

/-- Install configuration shared by the concrete installer runs. -/
def ctxDemo : InstallCtx :=
  ⟨"proj", "components", "components/utils", false⟩

/-- The utils registry item of the C5 counterexample.  Its content
defines `cnx` and `cn`; the name-anchored extraction for `cn` matches
inside `function cnx`, so a merge appends a second copy of `cnx` and `cn`
never becomes present — a second run merges again. -/
def c5CexComponent : RegComponent :=
  ⟨"utils", "registry:lib",
    [("index.ts",
      "export function cnx() \x7b return 1 \x7d\nexport function cn() \x7b return 2 \x7d")],
    [], [], []⟩

/-- Initial project file system of the C5 counterexample: the utils file
already defines `cnx`. -/
def c5CexFs : List (String × String) :=
  [("proj/components/utils/index.ts", "export function cnx() \x7b return 1 \x7d")]

/-- A well-behaved utils item for the C5 witness. -/
def c5GoodComponent : RegComponent :=
  ⟨"utils", "registry:lib",
    [("index.ts", "export function cn(a) \x7b\n  return a;\n\x7d\n")],
    [], [], []⟩

/-- First install run of the C5 counterexample. -/
def c5CexRun1 : Option (Bool × InstallState) :=
  installSingle (fetchOf [("utils", c5CexComponent)]) ctxDemo 1 "utils"
    ⟨[], [], c5CexFs⟩

/-- File system after the first run of the C5 counterexample. -/
def c5CexFs1 : List (String × String) :=
  match c5CexRun1 with
  | some (_, st) => st.fs
  | none => []

/-- Second install run of the C5 counterexample, from the file system the
first run left behind (fresh installed-set, as a new invocation has). -/
def c5CexRun2 : Option (Bool × InstallState) :=
  installSingle (fetchOf [("utils", c5CexComponent)]) ctxDemo 1 "utils"
    ⟨[], [], c5CexFs1⟩

/-- File system after the second run of the C5 counterexample. -/
def c5CexFs2 : List (String × String) :=
  match c5CexRun2 with
  | some (_, st) => st.fs
  | none => []

/-! ## Helper lemmas -/

theorem jsSetList_go_nodup (l : List String) :
    ∀ acc : List String, acc.Nodup →
      (l.foldl (fun acc x => if acc.contains x then acc else acc ++ [x]) acc).Nodup := by
  induction l with
  | nil => intro acc h; simpa using h
  | cons x xs ih =>
    intro acc h
    rw [List.foldl_cons]
    by_cases hx : x ∈ acc
    · have hstep : (if acc.contains x then acc else acc ++ [x]) = acc := by
        simp [hx]
      rw [hstep]; exact ih acc h
    · have hstep : (if acc.contains x then acc else acc ++ [x]) = acc ++ [x] := by
        simp [hx]
      rw [hstep]
      exact ih (acc ++ [x]) (by simp [List.nodup_append, h, hx])

theorem jsSetList_nodup (l : List String) : (jsSetList l).Nodup :=
  jsSetList_go_nodup l [] (by simp)

theorem mem_jsSetList_go (l : List String) :
    ∀ acc x, (x ∈ l.foldl (fun acc x => if acc.contains x then acc else acc ++ [x]) acc)
      ↔ x ∈ acc ∨ x ∈ l := by
  induction l with
  | nil => intro acc x; simp
  | cons y ys ih =>
    intro acc x
    rw [List.foldl_cons]
    by_cases hy : y ∈ acc
    · have hstep : (if acc.contains y then acc else acc ++ [y]) = acc := by
        simp [hy]
      rw [hstep, ih]
      constructor
      · rintro (h | h)
        · exact Or.inl h
        · exact Or.inr (List.mem_cons_of_mem _ h)
      · rintro (h | h)
        · exact Or.inl h
        · rcases List.mem_cons.mp h with h | h
          · exact Or.inl (h ▸ hy)
          · exact Or.inr h
    · have hstep : (if acc.contains y then acc else acc ++ [y]) = acc ++ [y] := by
        simp [hy]
      rw [hstep, ih]
      constructor
      · rintro (h | h)
        · rcases List.mem_append.mp h with h | h
          · exact Or.inl h
          · simp at h
            exact Or.inr (by simp [h])
        · exact Or.inr (List.mem_cons_of_mem _ h)
      · rintro (h | h)
        · exact Or.inl (List.mem_append.mpr (Or.inl h))
        · rcases List.mem_cons.mp h with h | h
          · exact Or.inl (List.mem_append.mpr (Or.inr (by simp [h])))
          · exact Or.inr h

theorem mem_jsSetList (l : List String) (x : String) :
    x ∈ jsSetList l ↔ x ∈ l := by
  rw [jsSetList, mem_jsSetList_go]
  simp

theorem fsLookup_fsWrite (fs : List (String × String)) (p c q : String) :
    fsLookup (fsWrite fs p c) q = if q = p then some c else fsLookup fs q := by
  induction fs with
  | nil =>
    by_cases h : q = p <;> simp [fsWrite, fsLookup, h]
  | cons hd tl ih =>
    obtain ⟨k, v⟩ := hd
    by_cases hk : k = p
    · subst hk
      by_cases hq : q = k <;> simp [fsWrite, fsLookup, hq]
    · by_cases hq : q = k
      · subst hq
        have hqp : ¬ q = p := hk
        simp [fsWrite, fsLookup, hk, hqp]
      · simp [fsWrite, fsLookup, hk, hq, ih]

/-- A merge can only report `skipped` when the target file existed. -/
theorem mergeUtilsFile_skipped_some (existing : Option String)
    (newContent : String) (overwrite : Bool)
    (h : (mergeUtilsFile existing newContent overwrite).1 = .skipped) :
    ∃ x, existing = some x ∧
      (mergeUtilsFile existing newContent overwrite).2 = x := by
  cases existing with
  | none => simp [mergeUtilsFile] at h
  | some x =>
    refine ⟨x, rfl, ?_⟩
    by_cases hov : overwrite
    · simp [mergeUtilsFile, hov] at h
    · unfold mergeUtilsFile at h ⊢
      by_cases h1 : (missingNames x newContent).isEmpty
      · simp [hov, h1]
      · by_cases h2 : (snippetsToAdd x newContent).isEmpty
        · simp [hov, h1, h2]
        · simp [hov, h1, h2] at h

/-- The two skip conditions of the claim make `mergeUtilsFile` a no-op
reported as `skipped`. -/
theorem mergeUtilsFile_skip (ex inc : String)
    (h : missingNames ex inc = [] ∨
      ∀ n ∈ missingNames ex inc, extractFunctionCode inc n = none) :
    mergeUtilsFile (some ex) inc false = (.skipped, ex) := by
  rcases h with h | h
  · unfold mergeUtilsFile
    simp [h]
  · have hsnip : snippetsToAdd ex inc = [] := by
      unfold snippetsToAdd
      rw [List.filterMap_eq_nil_iff]
      intro n hn
      rw [h n hn]
      rfl
    unfold mergeUtilsFile
    by_cases h1 : (missingNames ex inc).isEmpty
    · simp [h1]
    · simp [h1, hsnip]

/-- If every incoming binding name is already present, the merge is a
no-op. -/
theorem mergeUtilsFile_skip_of_subset (ex inc : String)
    (h : ∀ nm ∈ extractFunctionNames inc, nm ∈ extractFunctionNames ex) :
    mergeUtilsFile (some ex) inc false = (.skipped, ex) := by
  refine mergeUtilsFile_skip ex inc (Or.inl ?_)
  unfold missingNames
  rw [List.filter_eq_nil_iff]
  intro n hn
  simp [h n hn]

theorem fileStep_preserves_presence (ctx : InstallCtx) (ty : String)
    (fs : List (String × String)) (f : String × String) (q : String)
    (h : (fsLookup fs q).isSome) :
    (fsLookup ((fileStep ctx ty fs f).2) q).isSome := by
  unfold fileStep
  by_cases hU : isUtilsFile (targetPath ctx ty f.1)
  · cases hm : (mergeUtilsFile (fsLookup fs (targetPath ctx ty f.1)) f.2 ctx.overwrite).1 <;>
      simp [hU, hm, fsLookup_fsWrite] <;>
      by_cases hq : q = targetPath ctx ty f.1 <;> simp_all
  · by_cases hex : ((fsLookup fs (targetPath ctx ty f.1)).isSome && !ctx.overwrite) <;>
      simp [hU, hex, fsLookup_fsWrite] <;>
      by_cases hq : q = targetPath ctx ty f.1 <;> simp_all

theorem fileStep_target_present (ctx : InstallCtx) (ty : String)
    (fs : List (String × String)) (f : String × String) :
    (fsLookup ((fileStep ctx ty fs f).2) (targetPath ctx ty f.1)).isSome := by
  unfold fileStep
  by_cases hU : isUtilsFile (targetPath ctx ty f.1)
  · cases hm : (mergeUtilsFile (fsLookup fs (targetPath ctx ty f.1)) f.2 ctx.overwrite).1
    · simp [hU, hm, fsLookup_fsWrite]
    · simp [hU, hm, fsLookup_fsWrite]
    · rcases mergeUtilsFile_skipped_some _ _ _ hm with ⟨x, hx, _⟩
      rw [hx] at hm
      simp [hU, hx, hm]
  · by_cases hex : ((fsLookup fs (targetPath ctx ty f.1)).isSome && !ctx.overwrite)
    · simp only [hU]
      simp only [Bool.false_eq_true, if_false, hex, if_true]
      exact (Bool.and_eq_true_iff.mp hex).1
    · simp [hU, hex, fsLookup_fsWrite]

theorem filesRun_preserves_presence (ctx : InstallCtx) (ty : String)
    (files : List (String × String)) :
    ∀ fs q, (fsLookup fs q).isSome →
      (fsLookup ((filesRun ctx ty files fs).2) q).isSome := by
  induction files with
  | nil => intro fs q h; simpa [filesRun] using h
  | cons f rest ih =>
    intro fs q h
    simp only [filesRun]
    exact ih _ q (fileStep_preserves_presence ctx ty fs f q h)

theorem filesRun_targets_present (ctx : InstallCtx) (ty : String)
    (files : List (String × String)) :
    ∀ fs f, f ∈ files →
      (fsLookup ((filesRun ctx ty files fs).2) (targetPath ctx ty f.1)).isSome := by
  induction files with
  | nil => intro fs f h; simp at h
  | cons g rest ih =>
    intro fs f h
    rcases List.mem_cons.mp h with h | h
    · subst h
      simp only [filesRun]
      exact filesRun_preserves_presence ctx ty rest _ _
        (fileStep_target_present ctx ty fs f)
    · simp only [filesRun]
      exact ih _ f h

theorem filesRun_fixed_fs (ctx : InstallCtx) (ty : String)
    (files : List (String × String)) (F : List (String × String))
    (h : ∀ f ∈ files, (fileStep ctx ty F f).2 = F) :
    (filesRun ctx ty files F).2 = F := by
  induction files with
  | nil => rfl
  | cons f rest ih =>
    simp only [filesRun]
    rw [h f (by simp)]
    exact ih (fun g hg => h g (List.mem_cons_of_mem _ hg))

theorem startsWithL_append (p l x : List Char) (h : startsWithL p l = true) :
    startsWithL p (l ++ x) = true := by
  induction p generalizing l with
  | nil => rfl
  | cons pc ps ih =>
    cases l with
    | nil => simp [startsWithL] at h
    | cons c cs =>
      simp only [startsWithL, Bool.and_eq_true] at h ⊢
      exact ⟨h.1, ih cs h.2⟩

theorem hasSubL_append_right (p l x : List Char) (h : hasSubL p l = true) :
    hasSubL p (l ++ x) = true := by
  induction l with
  | nil =>
    cases p with
    | nil =>
      cases x with
      | nil => rfl
      | cons c cs => simp [hasSubL, startsWithL]
    | cons pc ps => simp [hasSubL, startsWithL] at h
  | cons c cs ih =>
    simp only [hasSubL, Bool.or_eq_true] at h
    rcases h with h | h
    · simp only [List.cons_append, hasSubL, Bool.or_eq_true]
      exact Or.inl (startsWithL_append p (c :: cs) x h)
    · simp only [List.cons_append, hasSubL, Bool.or_eq_true]
      exact Or.inr (ih h)

theorem hasSubL_append_left (p l x : List Char) (h : hasSubL p l = true) :
    hasSubL p (x ++ l) = true := by
  induction x with
  | nil => exact h
  | cons c cs ih =>
    simp only [List.cons_append, hasSubL, Bool.or_eq_true]
    exact Or.inr ih

/-- One-step unfolding of `installSingle` at positive fuel. -/
theorem installSingle_succ (env : String → FetchOutcome) (ctx : InstallCtx)
    (fuel : Nat) (name : String) (st : InstallState) :
    installSingle env ctx (fuel + 1) name st =
      (if st.installed.contains name then some (true, st)
      else
        let st1 : InstallState := { st with installed := st.installed ++ [name] }
        match env name with
        | .fail _ => some (false, st1)
        | .ok comp =>
          let st2 : InstallState :=
            { st1 with events := st1.events ++ [.fetched name] }
          let depsRes := comp.registryDependencies.foldl
            (fun acc dep =>
              match acc with
              | none => none
              | some (false, s) => some (false, s)
              | some (true, s) => installSingle env ctx fuel dep s)
            (some (true, st2))
          match depsRes with
          | none => none
          | some (false, s) => some (false, s)
          | some (true, s3) =>
            let s4 : InstallState := { s3 with events := s3.events ++ pkgEvents comp }
            let fr := filesRun ctx comp.type comp.files s3.fs
            some (true, { s4 with events := s4.events ++ fr.1, fs := fr.2 })) := rfl

theorem fetchedNames_append (e1 e2 : List Event) :
    fetchedNames (e1 ++ e2) = fetchedNames e1 ++ fetchedNames e2 :=
  List.filterMap_append e1 e2 _

theorem fetchedNames_pkgEvents (c : RegComponent) :
    fetchedNames (pkgEvents c) = [] := by
  unfold pkgEvents
  by_cases h1 : c.dependencies.isEmpty <;>
    by_cases h2 : c.devDependencies.isEmpty <;>
      simp [h1, h2, fetchedNames]

theorem fetchedNames_cons_fetched (x : String) (rest : List Event) :
    fetchedNames (Event.fetched x :: rest) = x :: fetchedNames rest := rfl

theorem fetchedNames_filesRun (ctx : InstallCtx) (ty : String)
    (files : List (String × String)) :
    ∀ fs, fetchedNames (filesRun ctx ty files fs).1 = [] := by
  induction files with
  | nil => intro fs; rfl
  | cons f rest ih =>
    intro fs
    simp only [filesRun]
    have hhead : ∀ e : Event, (∀ nm, e ≠ .fetched nm) →
        fetchedNames (e :: (filesRun ctx ty rest (fileStep ctx ty fs f).2).1) =
          fetchedNames (filesRun ctx ty rest (fileStep ctx ty fs f).2).1 := by
      intro e he
      cases e with
      | fetched nm => exact absurd rfl (he nm)
      | pkgInstall d dv => rfl
      | wrote p c2 => rfl
      | skippedFile p => rfl
      | mergedUtils p r => rfl
    rw [hhead _ ?_]
    · exact ih _
    · intro nm
      unfold fileStep
      by_cases hU : isUtilsFile (targetPath ctx ty f.1)
      · cases hm : (mergeUtilsFile (fsLookup fs (targetPath ctx ty f.1)) f.2 ctx.overwrite).1 <;>
          simp [hU, hm]
      · by_cases hex : ((fsLookup fs (targetPath ctx ty f.1)).isSome && !ctx.overwrite) <;>
          simp [hU, hex]

/-! ## C1 -/

/-- C1 — code_bug.  The spec claims every assembled registry item is
validated against `registryItemSchema` and a violation aborts the build
run with a non-zero exit.  In the code no such gate exists: every item
`createRegistryItem` assembles violates the schema (it emits no
`framework` field and its `files[]` entries carry no `type` field), yet
`processDirectory` writes the artifact and `buildRegistry` exits 0.  The
first conjunct proves the schema rejects every assembled item; the
remaining conjuncts evaluate the build at the failing input
`registry/react/ui/a.tsx`, showing the artifact is written and the run
exits 0 instead of aborting. -/
theorem c1_schema_gate_missing :
    (∀ file content framework ty sourceRel,
      registryItemSchemaAccepts
        (itemJson (createRegistryItem file content framework ty sourceRel)) = false) ∧
    processDirectory "react" "registry:component" [("a.tsx", "export const A = 1;")] =
      [("a.json", itemJson (createRegistryItem "a.tsx" "export const A = 1;"
        "react" "registry:component" "registry/react/a.tsx"))] ∧
    (buildRegistryRun [⟨"react", [("a.tsx", "export const A = 1;")], [], []⟩] "T").1 = 0 := by
  refine ⟨?_, by rfl, by rfl⟩
  intro file content framework ty sourceRel
  simp [registryItemSchemaAccepts, itemJson, List.lookup]

/-! ## C8 -/

/-- C8 — code_bug.  The spec (and the registry build test of the
repository, which expects `files[0].name = "utils/index.ts"` for a lib item built
from `utils.ts`) claims `lib` items are remapped to a
`<name>/index.<ext>` layout.  `createRegistryItem` keeps the original
file name for every item type: the first conjunct shows a `lib` item
built from `utils.ts` keeps `utils.ts`, and the second that the single
`files[]` entry always carries the original name, whatever the type. -/
theorem c8_lib_filename_not_remapped :
    (∀ content framework sourceRel,
      (createRegistryItem "utils.ts" content framework "registry:lib"
        sourceRel).files = [⟨"utils.ts", content⟩]) ∧
    (∀ file content framework ty sourceRel,
      ((createRegistryItem file content framework ty sourceRel).files.map
        (fun f => f.name)) = [file]) := by
  exact ⟨fun _ _ _ => rfl, fun _ _ _ _ _ => rfl⟩

/-! ## C9 -/

/-- C9 — code_bug.  The spec (and the tests of the repository on
`index.json`) claims the aggregate index contains an `animations[]`
array with one denormalized entry per built item.  `buildRegistry`
writes only `frameworks`, `stats` and `lastUpdated`: the index of a
build holding exactly one component has no `animations` key at all,
while the claimed keys that do exist are exactly the three below. -/
theorem c9_index_has_no_animations :
    (∀ frameworks totalComponents totalUtilities totalFrameworks lastUpdated,
      jxGet "animations" (indexJson frameworks totalComponents totalUtilities
        totalFrameworks lastUpdated) = none) ∧
    (∀ uiContent lastUpdated,
      buildRegistryRun [⟨"react", [("image-crossfade.tsx", uiContent)], [], []⟩]
          lastUpdated =
        (0, indexJson ["react"] 1 0 1 lastUpdated)) ∧
    (∀ frameworks c u f ts,
      jxGet "stats" (indexJson frameworks c u f ts) =
        some (.obj [("totalComponents", .n c), ("totalUtilities", .n u),
          ("totalFrameworks", .n f)]) ∧
      jxGet "lastUpdated" (indexJson frameworks c u f ts) = some (.s ts)) := by
  refine ⟨?_, ?_, ?_⟩
  · intro frameworks c u f ts
    simp [indexJson, jxGet, List.lookup]
  · intro uiContent lastUpdated
    rfl
  · intro frameworks c u f ts
    exact ⟨rfl, rfl⟩

/-! ## C6 -/

set_option maxRecDepth 4000 in
/-- C6 — confirmed.  `extractDependencies` returns a lexicographically
sorted duplicate-free list; the framework base package is always a
member; every member is either that base package or the package name
(two segments for scoped specifiers, one otherwise) of a matched import
specifier that is neither relative nor `@/`-aliased; and on the example
of the spec the result beyond the base package is exactly
`react` and `@scope/pkg`, sorted. -/
theorem c6_extract_dependencies :
    (∀ content framework,
      (extractDependencies content framework).Sorted jsLe) ∧
    (∀ content framework, (extractDependencies content framework).Nodup) ∧
    (∀ content framework base,
      FRAMEWORK_DEPENDENCIES.lookup framework = some base →
      base ∈ extractDependencies content framework) ∧
    (∀ content framework d, d ∈ extractDependencies content framework →
      FRAMEWORK_DEPENDENCIES.lookup framework = some d ∨
      ∃ spec ∈ importSpecs content,
        isSkippedSpec spec = false ∧ packageNameOf spec = some d) ∧
    extractDependencies c6Sample "nextjs" = ["@scope/pkg", "next", "react"] := by
  refine ⟨?_, ?_, ?_, ?_, by decide⟩
  · intro content framework
    exact List.sorted_insertionSort _ _
  · intro content framework
    exact ((List.perm_insertionSort _ _).nodup_iff).mpr (jsSetList_nodup _)
  · intro content framework base hbase
    unfold extractDependencies
    refine (List.perm_insertionSort _ _).mem_iff.mpr ?_
    refine (mem_jsSetList _ _).mpr ?_
    refine List.mem_append.mpr (Or.inl ?_)
    simp [hbase]
  · intro content framework d hd
    unfold extractDependencies at hd
    have hd2 := (mem_jsSetList _ _).mp ((List.perm_insertionSort _ _).mem_iff.mp hd)
    rcases List.mem_append.mp hd2 with h | h
    · left
      cases hbase : FRAMEWORK_DEPENDENCIES.lookup framework with
      | none => simp [hbase] at h
      | some b =>
        simp [hbase] at h
        subst h
        rfl
    · right
      rcases List.mem_filterMap.mp h with ⟨spec, hspec, hkeep⟩
      refine ⟨spec, hspec, ?_⟩
      by_cases hskip : isSkippedSpec spec
      · simp [hskip] at hkeep
      · simp [hskip] at hkeep
        exact ⟨by simpa using hskip, hkeep⟩

/-- C6 witness: the base-package conjunct applied at a concrete input. -/
theorem c6_extract_dependencies_witness :
    "next" ∈ extractDependencies "" "nextjs" :=
  c6_extract_dependencies.2.2.1 "" "nextjs" "next" (by decide)

/-! ## C4 -/

set_option maxRecDepth 8000 in
/-- C4 counterexample.  The claim says a binding whose name already
appears in the existing file is never altered *or duplicated*.  Here the
existing file defines `cn`; merging appends the snippet extracted for the
missing name `clsx`, and that snippet (which the brace-bounded pattern
extends to the next balanced block) textually contains a new
`const cn = ...` binding: the merged file now declares `cn` twice. -/
theorem c4_counterexample :
    "cn" ∈ extractFunctionNames c4CexExisting ∧
    (mergeUtilsFile (some c4CexExisting) c4CexIncoming false).1 = .merged ∧
    "cn" ∈ extractFunctionNames (String.mk
      ((mergeUtilsFile (some c4CexExisting) c4CexIncoming false).2.data.drop
        (jsTrimEnd c4CexExisting).data.length)) := by
  refine ⟨by decide, by decide, by decide⟩

set_option maxRecDepth 8000 in
/-- C4 — corrected.  What the code guarantees: a binding name already in
the existing file is never *selected* for merging — no snippet is
extracted or appended for it — and the existing file text is preserved
verbatim (up to trailing whitespace) as a prefix of the result, so no
existing binding is altered; a snippet appended for a *different* missing
name may however textually contain a binding with an existing name (see
the counterexample).  On the example of the spec, the original `cn` body is
unchanged and exactly the `clsx` definition is appended. -/
theorem c4_merge_preserves_existing_bindings :
    (∀ ex inc n, n ∈ missingNames ex inc → ¬ n ∈ extractFunctionNames ex) ∧
    (∀ ex inc, (mergeUtilsFile (some ex) inc false).1 = .skipped →
      (mergeUtilsFile (some ex) inc false).2 = ex) ∧
    (∀ ex inc, (mergeUtilsFile (some ex) inc false).1 = .merged →
      (mergeUtilsFile (some ex) inc false).2 =
        jsTrimEnd ex ++ "\n\n" ++ joinSep "\n\n" (snippetsToAdd ex inc) ++ "\n") ∧
    mergeUtilsFile (some exCnOnly) incCnClsx false =
      (.merged, exCnOnly ++ "\n\n" ++ clsxSnippet ++ "\n") := by
  refine ⟨?_, ?_, ?_, by decide⟩
  · intro ex inc n hn
    have := List.of_mem_filter hn
    simpa using this
  · intro ex inc
    unfold mergeUtilsFile
    by_cases h1 : (missingNames ex inc).isEmpty
    · simp [h1]
    · by_cases h2 : (snippetsToAdd ex inc).isEmpty
      · simp [h1, h2]
      · simp [h1, h2]
  · intro ex inc
    unfold mergeUtilsFile
    by_cases h1 : (missingNames ex inc).isEmpty
    · simp [h1]
    · by_cases h2 : (snippetsToAdd ex inc).isEmpty
      · simp [h1, h2]
      · simp [h1, h2]

/-- C4 witness: the skipped-case conjunct applied at a concrete input in
which the incoming content brings nothing new. -/
theorem c4_merge_preserves_existing_bindings_witness :
    (mergeUtilsFile (some exCnOnly) exCnOnly false).2 = exCnOnly :=
  c4_merge_preserves_existing_bindings.2.1 exCnOnly exCnOnly (by decide)

/-! ## C10 -/

/-- C10 — confirmed.  On the merge path (file exists, no overwrite flag),
if no incoming binding name is missing, or none of the missing names has
an extractable snippet, the merge is reported `skipped`, the resulting
content is the existing content, and at the installer level the file
system is returned unchanged — there is no partial write. -/
theorem c10_skipped_merge_writes_nothing :
    (∀ ex inc,
      (missingNames ex inc = [] ∨
        ∀ n ∈ missingNames ex inc, extractFunctionCode inc n = none) →
      mergeUtilsFile (some ex) inc false = (.skipped, ex)) ∧
    (∀ ctx ty fs file ex, ctx.overwrite = false →
      isUtilsFile (targetPath ctx ty file.1) = true →
      fsLookup fs (targetPath ctx ty file.1) = some ex →
      (missingNames ex file.2 = [] ∨
        ∀ n ∈ missingNames ex file.2, extractFunctionCode file.2 n = none) →
      fileStep ctx ty fs file =
        (.mergedUtils (targetPath ctx ty file.1) .skipped, fs)) := by
  refine ⟨mergeUtilsFile_skip, ?_⟩
  intro ctx ty fs file ex hov hutils hlook h
  unfold fileStep
  simp [hutils, hlook, hov, mergeUtilsFile_skip ex file.2 h]

/-- C10 witness: self-merge of the example utils file touches nothing. -/
theorem c10_skipped_merge_writes_nothing_witness :
    mergeUtilsFile (some exCnOnly) exCnOnly false = (.skipped, exCnOnly) :=
  c10_skipped_merge_writes_nothing.1 exCnOnly exCnOnly (by decide)

/-! ## C5 -/

set_option maxRecDepth 8000 in
/-- C5 counterexample.  Installing the same utils component twice without
the overwrite flag is *not* byte-identical in general: here the existing
utils file defines `cnx`, the incoming content defines `cnx` and `cn`,
and the name-anchored extraction for the missing `cn` matches inside
`function cnx`, appending a second `cnx` copy while `cn` stays missing —
so the second run merges again and the file keeps growing. -/
theorem c5_counterexample :
    c5CexRun1.map (fun r => r.1) = some true ∧
    c5CexRun2.map (fun r => r.1) = some true ∧
    c5CexFs2 ≠ c5CexFs1 := by
  refine ⟨by decide, by decide, by decide⟩

/-- C5 — corrected.  The second run of the same single component (no
registry dependencies, no overwrite flag) leaves the file system
byte-identical *provided* the first run left every incoming binding name
present in each utils target (regular files are always skipped on the
second run because the first run made their targets exist; a utils merge
whose names are all present is a `skipped` no-op).  The proviso fails
exactly in extraction anomalies such as the counterexample. -/
theorem c5_second_install_leaves_files_unchanged
    (c : RegComponent) (ctx : InstallCtx) (fs0 : List (String × String))
    (name : String) (st1 : InstallState)
    (hov : ctx.overwrite = false)
    (hdeps : c.registryDependencies = [])
    (h1 : installSingle (fun _ => .ok c) ctx 1 name ⟨[], [], fs0⟩ =
      some (true, st1))
    (hnames : ∀ f ∈ c.files, isUtilsFile (targetPath ctx c.type f.1) = true →
      (match fsLookup st1.fs (targetPath ctx c.type f.1) with
        | some ex => (extractFunctionNames f.2).all
            (fun nm => (extractFunctionNames ex).contains nm)
        | none => false) = true) :
    ∃ st2,
      installSingle (fun _ => .ok c) ctx 1 name ⟨[], [], st1.fs⟩ =
        some (true, st2) ∧
      st2.fs = st1.fs := by
  have hrun : ∀ F : List (String × String),
      installSingle (fun _ => .ok c) ctx 1 name ⟨[], [], F⟩ =
        some (true,
          ⟨[name],
            Event.fetched name :: (pkgEvents c ++ (filesRun ctx c.type c.files F).1),
            (filesRun ctx c.type c.files F).2⟩) := by
    intro F
    show installSingle _ _ (0 + 1) _ _ = _
    simp [installSingle, hdeps]
  have hfs1 : st1.fs = (filesRun ctx c.type c.files fs0).2 := by
    have hx := h1.symm.trans (hrun fs0)
    simp only [Option.some.injEq, Prod.mk.injEq, true_and] at hx
    rw [hx]
  refine ⟨_, hrun st1.fs, ?_⟩
  show (filesRun ctx c.type c.files st1.fs).2 = st1.fs
  refine filesRun_fixed_fs ctx c.type c.files st1.fs ?_
  intro f hf
  by_cases hU : isUtilsFile (targetPath ctx c.type f.1)
  · have hn := hnames f hf hU
    cases hl : fsLookup st1.fs (targetPath ctx c.type f.1) with
    | none => rw [hl] at hn; simp at hn
    | some ex =>
      rw [hl] at hn
      simp only [List.all_eq_true] at hn
      have hsubset : ∀ nm ∈ extractFunctionNames f.2, nm ∈ extractFunctionNames ex := by
        intro nm hm
        have := hn nm hm
        simpa using this
      unfold fileStep
      simp [hU, hl, hov, mergeUtilsFile_skip_of_subset ex f.2 hsubset]
  · have hpres : (fsLookup st1.fs (targetPath ctx c.type f.1)).isSome := by
      rw [hfs1]
      exact filesRun_targets_present ctx c.type c.files fs0 f hf
    unfold fileStep
    simp [hU, hpres, hov]

/-- C5 witness: with a well-behaved utils item whose binding lands under
its own name, the second run is a no-op on the file system. -/
theorem c5_second_install_leaves_files_unchanged_witness :
    ∃ st2,
      installSingle (fun _ => .ok c5GoodComponent) ctxDemo 1 "utils"
          ⟨[], [],
            (⟨["utils"],
              [Event.fetched "utils",
               Event.mergedUtils "proj/components/utils/index.ts" .created],
              [("proj/components/utils/index.ts",
                "export function cn(a) \x7b\n  return a;\n\x7d\n")]⟩ :
              InstallState).fs⟩ =
        some (true, st2) ∧
      st2.fs =
        (⟨["utils"],
          [Event.fetched "utils",
           Event.mergedUtils "proj/components/utils/index.ts" .created],
          [("proj/components/utils/index.ts",
            "export function cn(a) \x7b\n  return a;\n\x7d\n")]⟩ :
          InstallState).fs :=
  c5_second_install_leaves_files_unchanged c5GoodComponent ctxDemo [] "utils"
    _ (by decide) (by decide) (by decide) (by decide)

/-! ## C2 -/

/-- C2 — confirmed.  For components `A`, `B` whose registry dependencies
form a two-cycle, one install invocation of `a` terminates — for *every*
fuel beyond three recursion levels the interpreter returns a result, and
the same one — and each of `a` and `b` is fetched exactly once and ends
up in the shared installed-set exactly once: the name is added before its
fetch, so the back edge of the cycle short-circuits to success instead of
recursing forever. -/
theorem c2_cycle_terminates_installs_once
    (a b : String) (hab : a ≠ b) (A B : RegComponent) (ctx : InstallCtx)
    (fs0 : List (String × String)) (n : Nat)
    (hA : A.registryDependencies = [b]) (hB : B.registryDependencies = [a]) :
    ∃ st,
      installSingle (fetchOf [(a, A), (b, B)]) ctx (n + 3) a ⟨[], [], fs0⟩ =
        some (true, st) ∧
      st.installed = [a, b] ∧
      fetchedNames st.events = [a, b] := by
  have haa : (a == a) = true := beq_self_eq_true a
  have hbb : (b == b) = true := beq_self_eq_true b
  have hba : (b == a) = false := beq_eq_false_iff_ne.mpr (Ne.symm hab)
  refine ⟨⟨[a, b],
    Event.fetched a :: Event.fetched b ::
      (pkgEvents B ++ ((filesRun ctx B.type B.files fs0).1 ++
        (pkgEvents A ++
          (filesRun ctx A.type A.files (filesRun ctx B.type B.files fs0).2).1))),
    (filesRun ctx A.type A.files (filesRun ctx B.type B.files fs0).2).2⟩,
    ?_, rfl, ?_⟩
  · rw [show n + 3 = ((n + 1) + 1) + 1 from rfl]
    simp [installSingle_succ, fetchOf, regLookup, hA, hB, haa, hbb, hba,
      hab, Ne.symm hab]
  · simp only [fetchedNames_cons_fetched, fetchedNames_append,
      fetchedNames_pkgEvents, fetchedNames_filesRun, List.nil_append,
      List.append_nil]

/-- C2 witness: the cycle theorem applied to two concrete components. -/
theorem c2_cycle_terminates_installs_once_witness :
    ∃ st,
      installSingle
          (fetchOf
            [("alpha", ⟨"alpha", "registry:component", [("Alpha.tsx", "A")],
              [], [], ["beta"]⟩),
             ("beta", ⟨"beta", "registry:component", [("Beta.tsx", "B")],
              [], [], ["alpha"]⟩)])
          ctxDemo 3 "alpha" ⟨[], [], []⟩ =
        some (true, st) ∧
      st.installed = ["alpha", "beta"] ∧
      fetchedNames st.events = ["alpha", "beta"] :=
  c2_cycle_terminates_installs_once "alpha" "beta" (by decide)
    ⟨"alpha", "registry:component", [("Alpha.tsx", "A")], [], [], ["beta"]⟩
    ⟨"beta", "registry:component", [("Beta.tsx", "B")], [], [], ["alpha"]⟩
    ctxDemo [] 0 rfl rfl

/-! ## C3 -/

/-- C3 — confirmed.  For a component `A` whose registry dependencies are
`[b]`, the whole install trace of `a` is the concatenation: fetch of `a`,
then *all* install events of `B` — its fetch, its package installs and
every one of its file writes — then the package installs of `A`, then
the file writes of `A`.  Every file of `B` thus lands on disk before any
file of `A` is written and before the external packages of `A` are
installed. -/
theorem c3_dependency_first_order
    (a b : String) (hab : a ≠ b) (A B : RegComponent) (ctx : InstallCtx)
    (fs0 : List (String × String)) (n : Nat)
    (hA : A.registryDependencies = [b]) (hB : B.registryDependencies = []) :
    ∃ st,
      installSingle (fetchOf [(a, A), (b, B)]) ctx (n + 2) a ⟨[], [], fs0⟩ =
        some (true, st) ∧
      st.events =
        Event.fetched a :: Event.fetched b ::
          (pkgEvents B ++ ((filesRun ctx B.type B.files fs0).1 ++
            (pkgEvents A ++
              (filesRun ctx A.type A.files (filesRun ctx B.type B.files fs0).2).1))) ∧
      st.fs = (filesRun ctx A.type A.files (filesRun ctx B.type B.files fs0).2).2 := by
  have haa : (a == a) = true := beq_self_eq_true a
  have hbb : (b == b) = true := beq_self_eq_true b
  have hba : (b == a) = false := beq_eq_false_iff_ne.mpr (Ne.symm hab)
  refine ⟨⟨[a, b],
    Event.fetched a :: Event.fetched b ::
      (pkgEvents B ++ ((filesRun ctx B.type B.files fs0).1 ++
        (pkgEvents A ++
          (filesRun ctx A.type A.files (filesRun ctx B.type B.files fs0).2).1))),
    (filesRun ctx A.type A.files (filesRun ctx B.type B.files fs0).2).2⟩,
    ?_, rfl, rfl⟩
  rw [show n + 2 = (n + 1) + 1 from rfl]
  simp [installSingle_succ, fetchOf, regLookup, hA, hB, haa, hbb, hba,
    hab, Ne.symm hab]

/-- C3 witness: the ordering theorem applied to two concrete
components. -/
theorem c3_dependency_first_order_witness :
    ∃ st,
      installSingle
          (fetchOf
            [("alpha", ⟨"alpha", "registry:component", [("Alpha.tsx", "A")],
              ["clsx"], [], ["beta"]⟩),
             ("beta", ⟨"beta", "registry:component", [("Beta.tsx", "B")],
              [], [], []⟩)])
          ctxDemo 2 "alpha" ⟨[], [], []⟩ =
        some (true, st) ∧
      st.events =
        Event.fetched "alpha" :: Event.fetched "beta" ::
          (pkgEvents ⟨"beta", "registry:component", [("Beta.tsx", "B")], [], [], []⟩ ++
            ((filesRun ctxDemo "registry:component" [("Beta.tsx", "B")] []).1 ++
              (pkgEvents ⟨"alpha", "registry:component", [("Alpha.tsx", "A")],
                ["clsx"], [], ["beta"]⟩ ++
                (filesRun ctxDemo "registry:component" [("Alpha.tsx", "A")]
                  (filesRun ctxDemo "registry:component" [("Beta.tsx", "B")] []).2).1))) ∧
      st.fs =
        (filesRun ctxDemo "registry:component" [("Alpha.tsx", "A")]
          (filesRun ctxDemo "registry:component" [("Beta.tsx", "B")] []).2).2 :=
  c3_dependency_first_order "alpha" "beta" (by decide)
    ⟨"alpha", "registry:component", [("Alpha.tsx", "A")], ["clsx"], [], ["beta"]⟩
    ⟨"beta", "registry:component", [("Beta.tsx", "B")], [], [], []⟩
    ctxDemo [] 0 rfl rfl

/-! ## C7 -/

/-- C7 counterexample.  The claim says the alternate-framework suggestion
is offered only for names whose fetch failed with the true not-found
condition.  Here the fetch of `foo` fails with a transient HTTP 500 —
whose error message the catch block classifies as *not* not-found — yet
`foo` is pushed onto `notFound`, the availability probe is consulted for
it, and the suggestion (available for `nextjs`) is produced. -/
theorem c7_counterexample :
    classifiedNotFound
      (fetchErrorMessage "foo" "react" (.httpErr 500 "Internal Server Error")) =
        false ∧
    (runAdd (fun _ => .fail (.httpErr 500 "Internal Server Error"))
        (fun name fw => name == "foo" && fw == "nextjs") ctxDemo 1 ["foo"]).2.1 =
      [("foo", ["nextjs"])] := by
  refine ⟨by decide, by decide⟩

/-- C7 — corrected.  What the code does: the 404 fetch failure is indeed
classified distinctly (its message contains `not found`, and a transient
HTTP error with an ordinary status text is not so classified), but the
aggregation loop of `addComponent` records *every* failed name in
`notFound` and the suggestion pass consults the availability probe for
every entry of that list — for transient failures just as for true
not-found. -/
theorem c7_probe_consulted_for_every_failure :
    (∀ name framework,
      classifiedNotFound (fetchErrorMessage name framework .http404) = true) ∧
    classifiedNotFound
      (fetchErrorMessage "foo" "react" (.httpErr 500 "Internal Server Error")) =
        false ∧
    (∀ name fl headOk ctx,
      runAdd (fun _ => .fail fl) headOk ctx 1 [name] =
        (⟨0, 1, [name], ⟨[name], [], []⟩, false⟩,
         [(name, availableFrameworks headOk name)],
         1)) := by
  refine ⟨?_, by decide, ?_⟩
  · intro name framework
    unfold classifiedNotFound jsIncludes fetchErrorMessage
    simp only [String.data_append]
    apply hasSubL_append_right
    apply hasSubL_append_left
    decide
  · intro name fl headOk ctx
    simp [runAdd, runAddLoop, installSingle_succ, suggestionsFor,
      availableFrameworks]

end ClipMotion
